import Mathlib

/-!
A YAML-configured forwarding proxy: route registration and request relay.

Shallow embedding of `main.go`: the registration loop of `main`, `setupRoute`
with the closures it hands to the router, and `proxyRequest`.

The program's own code is translated function by function.  The pieces of the
Go standard library and of the Echo framework that it calls are modelled by
small definitions (`Header.Add`, `NewRequest`, `Response.WriteHeader` with the
writer's panic on a bad status code, `normalizePathSlash`, `ioCopy`) or, where their behaviour is a matter of the outside world, taken
from an `Env` record (key canonicalisation, request validation, the upstream
exchange).
-/

namespace SimpleProxy

/-! ## Data model -/

/-- Route represents a single forwarding rule. -/
structure Route where
  From : String
  To : String
deriving DecidableEq, Repr

/-- Config represents the YAML configuration file. -/
structure Config where
  Routes : List Route
deriving DecidableEq, Repr

/-- Go `error` values; `Option Error` with `none` for `nil`. -/
abbrev Error := String

/-- Go `http.Header`, a `map[string][]string`, as an association list.  A Go
map has pairwise distinct keys; the list order stands for the (unspecified)
iteration order of `range`. -/
abbrev Header := List (String × List String)

/-- The map read `h[key]` together with the presence bit (`v, ok := h[key]`). -/
def Header.lookup : Header → String → Option (List String)
  | [], _ => none
  | (k, vs) :: rest, key => if k = key then some vs else Header.lookup rest key

/-- The map read `h[key]`: the zero value (no values) for an absent key. -/
def Header.values (h : Header) (key : String) : List String :=
  (Header.lookup h key).getD []

/-- The map write `h[key] = vs`. -/
def Header.assign : Header → String → List String → Header
  | [], key, vs => [(key, vs)]
  | (k, old) :: rest, key, vs =>
    if k = key then (k, vs) :: rest else (k, old) :: Header.assign rest key vs

/-- The names present in the map. -/
def Header.names (h : Header) : List String := h.map Prod.fst

/-- Go `Header.Add`: canonicalise the key, then `h[key] = append(h[key], value)`. -/
def Header.Add (canon : String → String) (h : Header) (key value : String) : Header :=
  Header.assign h (canon key) (Header.values h (canon key) ++ [value])

/-- A body stream: the successive non-final reads, the error that ends the
stream (`none` for `io.EOF`), and how many times `Close` has been called. -/
structure Body where
  chunks : List (List Nat)
  err : Option Error
  closed : Nat
deriving DecidableEq, Repr

/-- All bytes of the stream, in order. -/
def Body.bytes (b : Body) : List Nat := b.chunks.flatten

/-- The call `Close` on a body. -/
def Body.Close (b : Body) : Body := { b with closed := b.closed + 1 }

/-- Go `http.Request`, the fields the program reads or `http.NewRequest` sets.
For an inbound request `RequestURI` is the request line's target; for an
outbound one `URL` is the address it is sent to. -/
structure Request where
  Method : String
  RequestURI : String
  URL : String
  Header : Header
  Body : Body
deriving DecidableEq, Repr

/-- Go `http.Response` as returned by `client.Do`. -/
structure HttpResponse where
  StatusCode : Nat
  Header : Header
  Body : Body
deriving DecidableEq, Repr

/-- Echo's `Response` over its `http.ResponseWriter`: the header map, the
status, whether the status line has been written, the bytes written to the
writer so far, and the writer's fault: `some (n, e)` when the writer accepts
`n` more bytes and then fails with `e`. -/
structure Response where
  Header : Header
  Status : Nat
  Committed : Bool
  Written : List Nat
  Fault : Option (Nat × Error)
deriving DecidableEq, Repr

/-- Echo's `Context` for one request: `path` is what `c.Path()` returns, which
Echo documents as the registered path for the handler (the stored form of the
pattern given to `e.Add`); `request` is
`c.Request()` and `response` is `c.Response()`. -/
structure Context where
  path : String
  request : Request
  response : Response
deriving DecidableEq, Repr

/-- The outside world as `proxyRequest` meets it. -/
structure Env where
  /-- The key canonicalisation `textproto.CanonicalMIMEHeaderKey`. -/
  canon : String → String
  /-- The checks of `http.NewRequest` on method and URL: `none` when they pass. -/
  requestError : String → String → Option Error
  /-- The upstream exchange `client.Do`. -/
  Do : Request → Except Error HttpResponse

/-! ## Library operations -/

/-- Go `http.NewRequest(method, url, body)`: an empty method means GET, the
method and URL are validated, the new request has an empty header map. -/
def NewRequest (env : Env) (method url : String) (body : Body) : Except Error Request :=
  let method := if method = "" then "GET" else method
  match env.requestError method url with
  | some err => .error err
  | none => .ok { Method := method, RequestURI := "", URL := url, Header := [], Body := body }

/-- The loop `for name, values := range src { for _, value := range values
{ dst.Add(name, value) } }`. -/
def copyHeader (canon : String → String) (src dst : Header) : Header :=
  src.foldl (fun acc nv => nv.2.foldl (fun a value => Header.Add canon a nv.1 value) acc) dst

/-- The check `checkWriteHeaderCode` of the net/http writer: a status code
has three digits and does not start with 0. -/
def validStatusCode (code : Nat) : Bool := decide (100 ≤ code) && decide (code ≤ 999)

/-- Echo's `Response.WriteHeader`: ignored once committed; otherwise it stores
the status, calls the writer's `WriteHeader` and then commits.  The writer
panics on a code outside 100..999: the status is stored by then, the response
stays uncommitted and nothing is sent.  The second component tells whether the
call panicked.  (The client consumes interim 1xx responses other than 101
itself, so those never reach this call.) -/
def Response.WriteHeader (r : Response) (code : Nat) : Response × Bool :=
  if r.Committed then (r, false)
  else if validStatusCode code then ({ r with Status := code, Committed := true }, false)
  else ({ r with Status := code }, true)

/-- The call `Write` on the underlying writer: the bytes accepted are appended; a
faulty writer accepts only what its budget allows and reports its error. -/
def Response.Write (r : Response) (p : List Nat) : Response × Nat × Option Error :=
  match r.Fault with
  | none => ({ r with Written := r.Written ++ p }, p.length, none)
  | some (n, e) =>
    if p.length ≤ n then
      ({ r with Written := r.Written ++ p, Fault := some (n - p.length, e) }, p.length, none)
    else
      ({ r with Written := r.Written ++ p.take n, Fault := some (0, e) }, n, some e)

/-- The error `io.ErrShortWrite`. -/
def ErrShortWrite : Error := "short write"

/-- Go `io.Copy(dst, src)` over the reads of `src`: each non-empty read is
written to `dst`; a write error or a short write stops the copy; at the end of
the stream the read error is returned, `nil` for EOF. -/
def ioCopy (dst : Response) : List (List Nat) → Option Error → Response × Option Error
  | [], er => (dst, er)
  | p :: rest, er =>
    if p.length = 0 then ioCopy dst rest er
    else
      match dst.Write p with
      | (dst1, _, some ew) => (dst1, some ew)
      | (dst1, nw, none) =>
        if nw ≠ p.length then (dst1, some ErrShortWrite) else ioCopy dst1 rest er

/-! ## `proxyRequest` -/

/-- What one call of `proxyRequest` leaves behind: the returned error, whether
the call panicked instead of returning (then `err` is `none`), the
caller-facing response, the requests handed to `client.Do`, and the upstream
response (with its body's close count) when the exchange succeeded. -/
structure ProxyResult where
  err : Option Error
  panicked : Bool
  response : Response
  calls : List Request
  upstream : Option HttpResponse
deriving DecidableEq, Repr

/-- The function proxyRequest forwards the request to the target URL. -/
def proxyRequest (env : Env) (c : Context) (target : String) : ProxyResult :=
  match NewRequest env c.request.Method target c.request.Body with
  | .error err =>
    { err := some err, panicked := false, response := c.response, calls := [],
      upstream := none }
  | .ok req0 =>
    -- Copy headers from the original request
    let req := { req0 with Header := copyHeader env.canon c.request.Header req0.Header }
    match env.Do req with
    | .error err =>
      { err := some err, panicked := false, response := c.response, calls := [req],
        upstream := none }
    | .ok resp =>
      -- Copy headers from the response
      let r1 := { c.response with Header := copyHeader env.canon resp.Header c.response.Header }
      let wh := r1.WriteHeader resp.StatusCode
      if wh.2 then
        -- WriteHeader panicked: the deferred resp.Body.Close() runs, nothing is returned
        { err := none, panicked := true, response := wh.1, calls := [req],
          upstream := some { resp with Body := resp.Body.Close } }
      else
        let out := ioCopy wh.1 resp.Body.chunks resp.Body.err
        -- the deferred resp.Body.Close()
        { err := out.2, panicked := false, response := out.1, calls := [req],
          upstream := some { resp with Body := resp.Body.Close } }

/-! ## Route registration -/

/-- The method list of `setupRoute`. -/
def methods : List String := ["GET", "POST", "PUT", "DELETE", "PATCH", "OPTIONS", "HEAD"]

/-- One call `e.Add(method, path, handler)` with its arguments as given.  The
handler is the closure of `setupRoute`; it refers to the variable `route` it
captured, the variable cell `cell`. -/
structure Registration where
  method : String
  path : String
  cell : Nat
deriving DecidableEq, Repr

/-- The state the program builds before it serves: the variable cells holding
`Route` values, and the router's registrations in the order of the `e.Add`
calls. -/
structure Machine where
  heap : List Route
  routes : List Registration
deriving DecidableEq, Repr

/-- A new variable initialised with `v`; returns its cell. -/
def Machine.alloc (m : Machine) (v : Route) : Machine × Nat :=
  ({ m with heap := m.heap ++ [v] }, m.heap.length)

/-- Reading a variable (the zero `Route` for a cell that was never allocated). -/
def Machine.load (m : Machine) (a : Nat) : Route := m.heap.getD a ⟨"", ""⟩

/-- Assigning to a variable. -/
def Machine.store (m : Machine) (a : Nat) (v : Route) : Machine :=
  { m with heap := m.heap.set a v }

/-- The call `e.Add(method, path, handler)`. -/
def Machine.Add (m : Machine) (method path : String) (cell : Nat) : Machine :=
  { m with routes := m.routes ++ [⟨method, path, cell⟩] }

/-- The function setupRoute sets up route handlers for each HTTP method.  The
parameter `route` is a variable of its own, initialised with the argument; each
pass of the loop declares a fresh `route := route` and registers a closure that
captured it. -/
def setupRoute (m : Machine) (route : Route) : Machine :=
  let (m0, param) := m.alloc route
  methods.foldl
    (fun m method =>
      let (m1, inner) := m.alloc (m.load param) -- capture range variable
      m1.Add method (m1.load inner).From inner)
    m0

/-- The registration loop of `main`: `for _, route := range config.Routes
{ setupRoute(e, route) }`.  The configuration is the value `loadConfig`
returned.  The loop variable is a single cell (cell 0) that every pass assigns
anew, as in Go before 1.22; with one variable per pass nothing else changes,
since `setupRoute` receives the value. -/
def main (config : Config) : Machine :=
  let (m0, loopVar) := (⟨[], []⟩ : Machine).alloc ⟨"", ""⟩
  config.Routes.foldl
    (fun m r =>
      let m1 := m.store loopVar r
      setupRoute m1 (m1.load loopVar))
    m0

/-! ## The registered handler -/

/-- What a run of the handler leaves behind: the target it computed, the line
it logged, and the outcome of `proxyRequest`. -/
structure HandlerResult where
  target : String
  logged : String
  proxied : ProxyResult
deriving DecidableEq, Repr

/-- The closure `func(c echo.Context) error` registered by `setupRoute`, run
in machine `m` with its captured variable at `cell`. -/
def handler (env : Env) (m : Machine) (cell : Nat) (c : Context) : HandlerResult :=
  let route := m.load cell
  let target := route.To ++ c.path
  { target := target,
    logged := "Forwarding " ++ c.request.Method ++ " request from " ++ c.request.RequestURI
      ++ " to " ++ target ++ "\n",
    proxied := proxyRequest env c target }

/-- A response as the handler finds it: nothing set, nothing written. -/
def freshResponse (fault : Option (Nat × Error)) : Response :=
  { Header := [], Status := 200, Committed := false, Written := [], Fault := fault }

/-- Echo's `normalizePathSlash`, which the router applies to a pattern before
it stores it: an empty pattern becomes "/", a pattern that does not start with
a slash gets one in front. -/
def normalizePathSlash (path : String) : String :=
  match path.data with
  | [] => "/"
  | ch :: _ => if ch = '/' then path else "/" ++ path

/-- The router runs the registration at position `idx` for request `req`: the
context's path is the registered path as the router stored it, the response is
fresh.  Which registration the router selects for a request is the router's
matter. -/
def invoke (env : Env) (m : Machine) (idx : Nat) (req : Request)
    (fault : Option (Nat × Error)) : Option HandlerResult :=
  (m.routes.get? idx).map fun g =>
    handler env m g.cell
      { path := normalizePathSlash g.path, request := req, response := freshResponse fault }

/-! ## Predicates and observations used in the statements -/

/-- A header map as net/http delivers it: distinct names, each in canonical
form, each with at least one value. -/
def Header.WellFormed (canon : String → String) (h : Header) : Prop :=
  (Header.names h).Nodup ∧ ∀ nv ∈ h, canon nv.1 = nv.1 ∧ nv.2 ≠ []

/-- Well-formedness of a concrete header map can be computed. -/
instance (canon : String → String) (h : Header) : Decidable (Header.WellFormed canon h) := by
  unfold Header.WellFormed; infer_instance

/-- An outside world for the worked instances: keys already canonical, an
empty URL rejected, the host `down` unreachable, any other call answered with
200, two headers and an eleven-byte body in three reads. -/
def exampleEnv : Env where
  canon := fun s => s
  requestError := fun _ url => if url = "" then some "empty url" else none
  Do := fun req =>
    if req.URL = "http://down/api/*" then .error "connection refused"
    else .ok ⟨200, [("Content-Type", ["application/json"]), ("Set-Cookie", ["a=1", "b=2"])],
              ⟨[[123, 34, 111], [107, 34, 58], [116, 114, 117, 101, 125]], none, 0⟩⟩

/-- The inbound request `GET /api/users?x=1` with a two-valued header. -/
def exampleRequest : Request :=
  { Method := "GET", RequestURI := "/api/users?x=1", URL := "",
    Header := [("X", ["a", "b"]), ("Connection", ["keep-alive"])],
    Body := ⟨[], none, 0⟩ }

/-- The context of `exampleRequest` under the pattern "/api/*". -/
def exampleContext (fault : Option (Nat × Error)) : Context :=
  { path := "/api/*", request := exampleRequest, response := freshResponse fault }

/-- The outbound request built from `exampleRequest` for the address `url`. -/
def exampleOutbound (url : String) : Request :=
  { Method := "GET", RequestURI := "", URL := url,
    Header := [("X", ["a", "b"]), ("Connection", ["keep-alive"])],
    Body := ⟨[], none, 0⟩ }

/-- The answer of `exampleEnv` to a call that goes through. -/
def exampleUpstream : HttpResponse :=
  ⟨200, [("Content-Type", ["application/json"]), ("Set-Cookie", ["a=1", "b=2"])],
    ⟨[[123, 34, 111], [107, 34, 58], [116, 114, 117, 101, 125]], none, 0⟩⟩

/-- An upstream answer whose status line carries the code 099. -/
def lowStatusUpstream : HttpResponse :=
  ⟨99, [("Content-Type", ["text/plain"])], ⟨[[111, 107]], none, 0⟩⟩

/-- An outside world whose upstream answers every call with `lowStatusUpstream`. -/
def lowStatusEnv : Env where
  canon := fun s => s
  requestError := fun _ _ => none
  Do := fun _ => .ok lowStatusUpstream

/-- A configuration whose only pattern is written without a leading slash. -/
def slashlessRoutes : List Route := [⟨"api", "http://h:1"⟩]

/-- The router's registrations in order, each with the value its closure's
captured variable holds in this machine. -/
def Machine.view (m : Machine) : List (String × String × Route) :=
  m.routes.map fun g => (g.method, g.path, m.load g.cell)

/-- The loop variable of `main` is allocated (cell 0) and every closure's
variable is an allocated cell other than it. -/
def Machine.Bounded (m : Machine) : Prop :=
  0 < m.heap.length ∧ ∀ g ∈ m.routes, 0 < g.cell ∧ g.cell < m.heap.length

/-- A configuration with a wildcard rule and a static rule. -/
def exampleRoutes : List Route :=
  [⟨"/api/*", "http://upstream:8080"⟩, ⟨"/static", "http://files:9000"⟩]

/-- Another configuration holding the same wildcard rule, between two others. -/
def exampleRoutesGrown : List Route :=
  [⟨"/first", "http://first"⟩, ⟨"/api/*", "http://upstream:8080"⟩, ⟨"/last/:id", "http://last"⟩]

/-! ## Header maps -/

theorem Header.lookup_assign (h : Header) (key : String) (vs : List String) (k : String) :
    Header.lookup (Header.assign h key vs) k = if key = k then some vs else Header.lookup h k := by
  induction h with
  | nil => simp [Header.assign, Header.lookup]
  | cons e rest ih =>
    obtain ⟨k0, old⟩ := e
    by_cases h0 : k0 = key
    · subst h0
      by_cases h1 : k0 = k <;> simp [Header.assign, Header.lookup, h1]
    · by_cases h1 : k0 = k
      · subst h1
        simp [Header.assign, Header.lookup, h0, Ne.symm h0]
      · simp [Header.assign, Header.lookup, h0, h1, ih]

theorem Header.lookup_Add (canon : String → String) (h : Header) (key value k : String) :
    Header.lookup (Header.Add canon h key value) k
      = if canon key = k then some (Header.values h (canon key) ++ [value])
        else Header.lookup h k := by
  simp [Header.Add, Header.lookup_assign]

theorem Header.lookup_addAll (canon : String → String) (name : String) (vs : List String)
    (h : Header) (k : String) :
    Header.lookup (vs.foldl (fun a value => Header.Add canon a name value) h) k
      = if canon name = k ∧ vs ≠ [] then some (Header.values h (canon name) ++ vs)
        else Header.lookup h k := by
  induction vs generalizing h with
  | nil => simp
  | cons v rest ih =>
    rw [List.foldl_cons, ih]
    by_cases hk : canon name = k
    · subst hk
      by_cases hr : rest = []
      · subst hr
        simp [Header.lookup_Add]
      · simp [hr, Header.values, Header.lookup_Add]
    · simp [hk, Header.lookup_Add]

theorem Header.lookup_eq_none_of_not_mem (h : Header) (k : String)
    (hk : k ∉ Header.names h) : Header.lookup h k = none := by
  induction h with
  | nil => rfl
  | cons e rest ih =>
    obtain ⟨k0, vs⟩ := e
    simp [Header.names] at hk
    have h0 : ¬ k0 = k := fun h => hk.1 h.symm
    simp only [Header.lookup, h0, if_false]
    apply ih
    simpa [Header.names] using hk.2

theorem lookup_copyHeader (canon : String → String) (src dst : Header)
    (hwf : Header.WellFormed canon src) (k : String) :
    Header.lookup (copyHeader canon src dst) k
      = match Header.lookup src k with
        | some vs => some (Header.values dst k ++ vs)
        | none => Header.lookup dst k := by
  induction src generalizing dst with
  | nil => simp [copyHeader, Header.lookup]
  | cons e rest ih =>
    obtain ⟨n, vs⟩ := e
    obtain ⟨hnd, hall⟩ := hwf
    have hn : canon n = n ∧ vs ≠ [] := hall (n, vs) (List.mem_cons_self _ _)
    have hrest : Header.WellFormed canon rest := by
      refine ⟨?_, fun nv hnv => hall nv (List.mem_cons_of_mem _ hnv)⟩
      simp [Header.names] at hnd
      simpa [Header.names] using hnd.2
    have hnot : n ∉ Header.names rest := by
      simp [Header.names] at hnd
      simpa [Header.names] using hnd.1
    have step : copyHeader canon ((n, vs) :: rest) dst
        = copyHeader canon rest (vs.foldl (fun a value => Header.Add canon a n value) dst) := by
      simp [copyHeader]
    rw [step, ih _ hrest]
    by_cases hk : n = k
    · subst hk
      rw [Header.lookup_eq_none_of_not_mem rest n hnot]
      simp [Header.lookup, Header.lookup_addAll, hn.1, hn.2]
    · simp [Header.lookup, hk, Header.values, Header.lookup_addAll, hn.1]

theorem lookup_copyHeader_nil (canon : String → String) (src : Header)
    (hwf : Header.WellFormed canon src) (k : String) :
    Header.lookup (copyHeader canon src []) k = Header.lookup src k := by
  rw [lookup_copyHeader canon src [] hwf k]
  cases Header.lookup src k <;> simp [Header.values, Header.lookup]

/-! ## The copy loop -/

theorem ioCopy_noFault (dst : Response) (chunks : List (List Nat)) (er : Option Error)
    (hf : dst.Fault = none) :
    ioCopy dst chunks er = ({ dst with Written := dst.Written ++ chunks.flatten }, er) := by
  induction chunks generalizing dst with
  | nil => simp [ioCopy]
  | cons p rest ih =>
    by_cases hp : p.length = 0
    · have : p = [] := List.length_eq_zero.mp hp
      subst this
      simp [ioCopy, ih dst hf]
    · have hw : dst.Write p = ({ dst with Written := dst.Written ++ p }, p.length, none) := by
        simp [Response.Write, hf]
      simp only [ioCopy, hp, if_false, hw]
      have h1 := ih { dst with Written := dst.Written ++ p } hf
      simp only [ne_eq, not_true_eq_false, if_false]
      rw [h1]
      simp [List.append_assoc]

theorem ioCopy_fault (dst : Response) (chunks : List (List Nat)) (er : Option Error)
    (n : Nat) (e : Error) (hf : dst.Fault = some (n, e)) :
    ioCopy dst chunks er
      = if chunks.flatten.length ≤ n then
          ({ dst with Written := dst.Written ++ chunks.flatten,
                      Fault := some (n - chunks.flatten.length, e) }, er)
        else
          ({ dst with Written := dst.Written ++ chunks.flatten.take n,
                      Fault := some (0, e) }, some e) := by
  induction chunks generalizing dst n with
  | nil =>
    cases dst
    simp_all [ioCopy]
  | cons p rest ih =>
    by_cases hp : p.length = 0
    · have : p = [] := List.length_eq_zero.mp hp
      subst this
      simp [ioCopy, ih dst n hf]
    · by_cases hpn : p.length ≤ n
      · have hw : dst.Write p
            = ({ dst with Written := dst.Written ++ p, Fault := some (n - p.length, e) },
                p.length, none) := by
          simp [Response.Write, hf, hpn]
        simp only [ioCopy, hp, if_false, hw]
        simp only [ne_eq, not_true_eq_false, if_false]
        rw [ih _ (n - p.length) rfl]
        by_cases hall : rest.flatten.length ≤ n - p.length
        · have h2 : (p :: rest).flatten.length ≤ n := by
            rw [List.flatten_cons, List.length_append]; omega
          simp only [hall, h2, if_true]
          simp [List.flatten_cons, List.append_assoc, Nat.sub_sub]
        · have h2 : ¬ (p :: rest).flatten.length ≤ n := by
            rw [List.flatten_cons, List.length_append]; omega
          simp only [hall, h2, if_false]
          simp [List.flatten_cons, List.append_assoc, List.take_append_eq_append_take,
            List.take_of_length_le hpn]
      · have hw : dst.Write p
            = ({ dst with Written := dst.Written ++ p.take n, Fault := some (0, e) },
                n, some e) := by
          simp [Response.Write, hf, hpn]
        have h2 : ¬ (p :: rest).flatten.length ≤ n := by
          rw [List.flatten_cons, List.length_append]; omega
        simp only [ioCopy, hp, if_false, hw, h2]
        have hlt : n ≤ p.length := by omega
        simp [List.flatten_cons, List.take_append_of_le_length hlt]

/-! ## The paths through `proxyRequest` -/

theorem NewRequest_ok (env : Env) (method url : String) (body : Body) (req : Request)
    (h : NewRequest env method url body = .ok req) :
    req = { Method := if method = "" then "GET" else method, RequestURI := "", URL := url,
            Header := [], Body := body } := by
  simp only [NewRequest] at h
  cases hv : env.requestError (if method = "" then "GET" else method) url with
  | some err => rw [hv] at h; cases h
  | none =>
    rw [hv] at h
    injection h with h
    exact h.symm

theorem proxyRequest_of_error (env : Env) (c : Context) (target : String) (err : Error)
    (h : NewRequest env c.request.Method target c.request.Body = .error err) :
    proxyRequest env c target
      = { err := some err, panicked := false, response := c.response, calls := [],
          upstream := none } := by
  simp [proxyRequest, h]

theorem proxyRequest_of_refused (env : Env) (c : Context) (target : String) (req0 : Request)
    (err : Error)
    (h1 : NewRequest env c.request.Method target c.request.Body = .ok req0)
    (h2 : env.Do { req0 with Header := copyHeader env.canon c.request.Header req0.Header }
            = .error err) :
    proxyRequest env c target
      = { err := some err, panicked := false, response := c.response,
          calls := [{ req0 with Header := copyHeader env.canon c.request.Header req0.Header }],
          upstream := none } := by
  simp [proxyRequest, h1, h2]

theorem proxyRequest_of_exchange (env : Env) (c : Context) (target : String) (req0 : Request)
    (resp : HttpResponse)
    (h1 : NewRequest env c.request.Method target c.request.Body = .ok req0)
    (h2 : env.Do { req0 with Header := copyHeader env.canon c.request.Header req0.Header }
            = .ok resp)
    (h3 : (Response.WriteHeader
            { c.response with Header := copyHeader env.canon resp.Header c.response.Header }
            resp.StatusCode).2 = false) :
    proxyRequest env c target
      = { err := (ioCopy (Response.WriteHeader
                    { c.response with
                      Header := copyHeader env.canon resp.Header c.response.Header }
                    resp.StatusCode).1 resp.Body.chunks resp.Body.err).2,
          panicked := false,
          response := (ioCopy (Response.WriteHeader
                    { c.response with
                      Header := copyHeader env.canon resp.Header c.response.Header }
                    resp.StatusCode).1 resp.Body.chunks resp.Body.err).1,
          calls := [{ req0 with Header := copyHeader env.canon c.request.Header req0.Header }],
          upstream := some { resp with Body := resp.Body.Close } } := by
  simp [proxyRequest, h1, h2, h3]

theorem proxyRequest_of_panic (env : Env) (c : Context) (target : String) (req0 : Request)
    (resp : HttpResponse)
    (h1 : NewRequest env c.request.Method target c.request.Body = .ok req0)
    (h2 : env.Do { req0 with Header := copyHeader env.canon c.request.Header req0.Header }
            = .ok resp)
    (h3 : (Response.WriteHeader
            { c.response with Header := copyHeader env.canon resp.Header c.response.Header }
            resp.StatusCode).2 = true) :
    proxyRequest env c target
      = { err := none, panicked := true,
          response := (Response.WriteHeader
                    { c.response with
                      Header := copyHeader env.canon resp.Header c.response.Header }
                    resp.StatusCode).1,
          calls := [{ req0 with Header := copyHeader env.canon c.request.Header req0.Header }],
          upstream := some { resp with Body := resp.Body.Close } } := by
  simp [proxyRequest, h1, h2, h3]

theorem proxyRequest_calls_of_do (env : Env) (c : Context) (target : String) (req0 : Request)
    (resp : HttpResponse)
    (h1 : NewRequest env c.request.Method target c.request.Body = .ok req0)
    (h2 : env.Do { req0 with Header := copyHeader env.canon c.request.Header req0.Header }
            = .ok resp) :
    (proxyRequest env c target).calls
      = [{ req0 with Header := copyHeader env.canon c.request.Header req0.Header }] := by
  cases h3 : (Response.WriteHeader
      { c.response with Header := copyHeader env.canon resp.Header c.response.Header }
      resp.StatusCode).2 with
  | false => rw [proxyRequest_of_exchange env c target req0 resp h1 h2 h3]
  | true => rw [proxyRequest_of_panic env c target req0 resp h1 h2 h3]

/-- Every request in the call trace is the one built from the inbound request,
and it is the only one. -/
theorem calls_of_mem (env : Env) (c : Context) (target : String) (req : Request)
    (h : req ∈ (proxyRequest env c target).calls) :
    ∃ req0, NewRequest env c.request.Method target c.request.Body = .ok req0 ∧
      req = { req0 with Header := copyHeader env.canon c.request.Header req0.Header } ∧
      (proxyRequest env c target).calls = [req] := by
  cases h1 : NewRequest env c.request.Method target c.request.Body with
  | error err =>
    rw [proxyRequest_of_error env c target err h1] at h
    simp at h
  | ok req0 =>
    refine ⟨req0, rfl, ?_⟩
    cases h2 : env.Do { req0 with Header := copyHeader env.canon c.request.Header req0.Header } with
    | error err =>
      rw [proxyRequest_of_refused env c target req0 err h1 h2] at h ⊢
      simp at h
      simp [h]
    | ok resp =>
      rw [proxyRequest_calls_of_do env c target req0 resp h1 h2] at h ⊢
      simp at h
      simp [h]

theorem calls_of_ok (env : Env) (c : Context) (target : String) (req0 : Request)
    (h1 : NewRequest env c.request.Method target c.request.Body = .ok req0) :
    (proxyRequest env c target).calls
      = [{ req0 with Header := copyHeader env.canon c.request.Header req0.Header }] := by
  cases h2 : env.Do { req0 with Header := copyHeader env.canon c.request.Header req0.Header } with
  | error err => rw [proxyRequest_of_refused env c target req0 err h1 h2]
  | ok resp => rw [proxyRequest_calls_of_do env c target req0 resp h1 h2]

/-- The state of the caller-facing response when the body copy starts. -/
theorem WriteHeader_frame (r : Response) (code : Nat) :
    (r.WriteHeader code).1.Header = r.Header ∧ (r.WriteHeader code).1.Written = r.Written ∧
    (r.WriteHeader code).1.Fault = r.Fault ∧
    (r.WriteHeader code).1.Status = (if r.Committed then r.Status else code) ∧
    ((r.WriteHeader code).2 = false → (r.WriteHeader code).1.Committed = true) := by
  unfold Response.WriteHeader
  cases h : r.Committed <;> cases hv : validStatusCode code <;> simp [h, hv]

theorem WriteHeader_returns (r : Response) (code : Nat) (hlo : 100 ≤ code) (hhi : code ≤ 999) :
    (r.WriteHeader code).2 = false := by
  have hv : validStatusCode code = true := by simp [validStatusCode, hlo, hhi]
  unfold Response.WriteHeader
  cases h : r.Committed <;> simp [h, hv]

theorem ioCopy_frame (dst : Response) (chunks : List (List Nat)) (er : Option Error) :
    (ioCopy dst chunks er).1.Header = dst.Header ∧
    (ioCopy dst chunks er).1.Status = dst.Status ∧
    (ioCopy dst chunks er).1.Committed = dst.Committed := by
  cases hf : dst.Fault with
  | none => rw [ioCopy_noFault dst chunks er hf]; simp
  | some ne =>
    obtain ⟨n, e⟩ := ne
    rw [ioCopy_fault dst chunks er n e hf]
    split <;> simp

/-- C4: for an inbound header map as net/http delivers it, the request handed
to the client carries under every name exactly the inbound values in the
inbound order, and under no other name anything; the request exists as soon as
`http.NewRequest` succeeds. -/
theorem proxyRequest_forwards_request_headers (env : Env) (c : Context) (target : String)
    (hwf : Header.WellFormed env.canon c.request.Header) :
    (∀ req ∈ (proxyRequest env c target).calls, ∀ name,
        Header.lookup req.Header name = Header.lookup c.request.Header name) ∧
    (∀ req0, NewRequest env c.request.Method target c.request.Body = .ok req0 →
        ∃ req, (proxyRequest env c target).calls = [req]) := by
  constructor
  · intro req hreq name
    obtain ⟨req0, h1, hreq0, _⟩ := calls_of_mem env c target req hreq
    have h0 := NewRequest_ok env _ _ _ req0 h1
    subst hreq0
    subst h0
    exact lookup_copyHeader_nil env.canon c.request.Header hwf name
  · intro req0 h1
    exact ⟨_, calls_of_ok env c target req0 h1⟩

/-- The header copy on the example request, whose map is well formed. -/
theorem proxyRequest_forwards_request_headers_witness :
    Header.WellFormed exampleEnv.canon (exampleContext none).request.Header ∧
    (∀ req ∈ (proxyRequest exampleEnv (exampleContext none) "http://upstream:8080/api/*").calls,
      ∀ name, Header.lookup req.Header name
        = Header.lookup (exampleContext none).request.Header name) ∧
    (proxyRequest exampleEnv (exampleContext none) "http://upstream:8080/api/*").calls
      = [exampleOutbound "http://upstream:8080/api/*"] :=
  ⟨by decide,
   (proxyRequest_forwards_request_headers exampleEnv (exampleContext none)
      "http://upstream:8080/api/*" (by decide)).1,
   by decide⟩

/-- C5 as stated fails on the code: the upstream answers with the status code
99, the exchange succeeds, and `WriteHeader` panics; `proxyRequest` does not
return, the response stays uncommitted with nothing written, so the caller
never receives the upstream status. -/
theorem status_below_100_is_not_relayed :
    (exampleContext none).response = freshResponse (exampleContext none).response.Fault ∧
    exampleOutbound "http://upstream:8080/api/*"
      ∈ (proxyRequest lowStatusEnv (exampleContext none) "http://upstream:8080/api/*").calls ∧
    lowStatusEnv.Do (exampleOutbound "http://upstream:8080/api/*") = .ok lowStatusUpstream ∧
    Header.WellFormed lowStatusEnv.canon lowStatusUpstream.Header ∧
    (proxyRequest lowStatusEnv (exampleContext none) "http://upstream:8080/api/*").panicked
      = true ∧
    (proxyRequest lowStatusEnv (exampleContext none)
      "http://upstream:8080/api/*").response.Written = [] ∧
    ¬ ((proxyRequest lowStatusEnv (exampleContext none)
          "http://upstream:8080/api/*").response.Status = lowStatusUpstream.StatusCode ∧
       (proxyRequest lowStatusEnv (exampleContext none)
          "http://upstream:8080/api/*").response.Committed = true ∧
       ∀ name, Header.lookup (proxyRequest lowStatusEnv (exampleContext none)
          "http://upstream:8080/api/*").response.Header name
        = Header.lookup lowStatusUpstream.Header name) :=
  ⟨by decide, by decide, rfl, by decide, by decide, by decide,
    fun h => absurd h.2.1 (by decide)⟩

/-- C5 (amended): when the exchange succeeds with an upstream status code in
100..999, `proxyRequest` returns and the response the handler was given
(nothing set, nothing written) ends with the upstream status code, committed,
and with a header map that holds under every name exactly the upstream values
in the upstream order and nothing under any other name. -/
theorem proxyRequest_relays_valid_status_and_headers (env : Env) (c : Context)
    (target : String) (req : Request) (resp : HttpResponse)
    (hfresh : c.response = freshResponse c.response.Fault)
    (hcall : req ∈ (proxyRequest env c target).calls)
    (hdo : env.Do req = .ok resp)
    (hwf : Header.WellFormed env.canon resp.Header)
    (hlo : 100 ≤ resp.StatusCode) (hhi : resp.StatusCode ≤ 999) :
    (proxyRequest env c target).panicked = false ∧
    (proxyRequest env c target).response.Status = resp.StatusCode ∧
    (proxyRequest env c target).response.Committed = true ∧
    ∀ name, Header.lookup (proxyRequest env c target).response.Header name
      = Header.lookup resp.Header name := by
  obtain ⟨req0, h1, hreq0, _⟩ := calls_of_mem env c target req hcall
  subst hreq0
  have h3 := WriteHeader_returns
      { c.response with Header := copyHeader env.canon resp.Header c.response.Header }
      resp.StatusCode hlo hhi
  rw [proxyRequest_of_exchange env c target req0 resp h1 hdo h3]
  have hfr := ioCopy_frame (Response.WriteHeader
      { c.response with Header := copyHeader env.canon resp.Header c.response.Header }
      resp.StatusCode).1 resp.Body.chunks resp.Body.err
  have hwh := WriteHeader_frame
      { c.response with Header := copyHeader env.canon resp.Header c.response.Header }
      resp.StatusCode
  have hC : c.response.Committed = false := by rw [hfresh]; rfl
  have hH : c.response.Header = [] := by rw [hfresh]; rfl
  refine ⟨rfl, ?_, ?_, ?_⟩
  · show (ioCopy _ _ _).1.Status = _
    rw [hfr.2.1, hwh.2.2.2.1]
    simp [hC]
  · show (ioCopy _ _ _).1.Committed = true
    rw [hfr.2.2]
    exact hwh.2.2.2.2 h3
  · intro name
    show Header.lookup (ioCopy _ _ _).1.Header name = _
    rw [hfr.1, hwh.1]
    show Header.lookup (copyHeader env.canon resp.Header c.response.Header) name = _
    rw [hH]
    exact lookup_copyHeader_nil env.canon resp.Header hwf name

/-- Status and headers of the example exchange, status 200, as the caller sees
them. -/
theorem proxyRequest_relays_valid_status_and_headers_witness :
    (proxyRequest exampleEnv (exampleContext none) "http://upstream:8080/api/*").panicked
      = false ∧
    (proxyRequest exampleEnv (exampleContext none) "http://upstream:8080/api/*").response.Status
      = 200 ∧
    (proxyRequest exampleEnv (exampleContext none)
      "http://upstream:8080/api/*").response.Committed = true ∧
    ∀ name, Header.lookup (proxyRequest exampleEnv (exampleContext none)
        "http://upstream:8080/api/*").response.Header name
      = Header.lookup exampleUpstream.Header name :=
  proxyRequest_relays_valid_status_and_headers exampleEnv (exampleContext none)
    "http://upstream:8080/api/*" (exampleOutbound "http://upstream:8080/api/*") exampleUpstream
    (by decide) (by decide) rfl (by decide) (by decide) (by decide)

/-- C6: when `http.NewRequest` fails, `proxyRequest` returns that error, makes
no outbound call and leaves the caller-facing response as it was; when the
client call fails, it returns that error and leaves the caller-facing response
as it was. -/
theorem proxyRequest_failure_leaves_response (env : Env) (c : Context) (target : String) :
    (∀ err, NewRequest env c.request.Method target c.request.Body = .error err →
      (proxyRequest env c target).err = some err ∧
      (proxyRequest env c target).response = c.response ∧
      (proxyRequest env c target).calls = []) ∧
    (∀ req err, req ∈ (proxyRequest env c target).calls → env.Do req = .error err →
      (proxyRequest env c target).err = some err ∧
      (proxyRequest env c target).response = c.response ∧
      (proxyRequest env c target).calls = [req]) := by
  constructor
  · intro err h
    rw [proxyRequest_of_error env c target err h]
    exact ⟨rfl, rfl, rfl⟩
  · intro req err hreq hdo
    obtain ⟨req0, h1, hreq0, _⟩ := calls_of_mem env c target req hreq
    subst hreq0
    rw [proxyRequest_of_refused env c target req0 err h1 hdo]
    exact ⟨rfl, rfl, rfl⟩

/-- Both failure paths on the example request: an empty target, and the unreachable host. -/
theorem proxyRequest_failure_leaves_response_witness :
    ((proxyRequest exampleEnv (exampleContext none) "").err = some "empty url" ∧
      (proxyRequest exampleEnv (exampleContext none) "").response = freshResponse none ∧
      (proxyRequest exampleEnv (exampleContext none) "").calls = []) ∧
    ((proxyRequest exampleEnv (exampleContext none) "http://down/api/*").err
        = some "connection refused" ∧
      (proxyRequest exampleEnv (exampleContext none) "http://down/api/*").response
        = freshResponse none ∧
      (proxyRequest exampleEnv (exampleContext none) "http://down/api/*").calls
        = [exampleOutbound "http://down/api/*"]) :=
  ⟨(proxyRequest_failure_leaves_response exampleEnv (exampleContext none) "").1
      "empty url" rfl,
   (proxyRequest_failure_leaves_response exampleEnv (exampleContext none)
      "http://down/api/*").2 (exampleOutbound "http://down/api/*") "connection refused"
      (by decide) rfl⟩

/-- C7: after a successful exchange, a call that returns with no error (so
the body copy ran and completed) has appended to the caller-facing body exactly
the upstream body's bytes, in order; and the call does return with no error
when the upstream status code is in 100..999, the upstream stream ends with
EOF and the writer accepts that many bytes. -/
theorem proxyRequest_relays_body (env : Env) (c : Context) (target : String)
    (req : Request) (resp : HttpResponse)
    (hcall : req ∈ (proxyRequest env c target).calls)
    (hdo : env.Do req = .ok resp) :
    ((proxyRequest env c target).panicked = false →
      (proxyRequest env c target).err = none →
      (proxyRequest env c target).response.Written = c.response.Written ++ resp.Body.bytes) ∧
    (100 ≤ resp.StatusCode → resp.StatusCode ≤ 999 →
      resp.Body.err = none →
      (∀ n e, c.response.Fault = some (n, e) → resp.Body.bytes.length ≤ n) →
      (proxyRequest env c target).panicked = false ∧
      (proxyRequest env c target).err = none) := by
  obtain ⟨req0, h1, hreq0, _⟩ := calls_of_mem env c target req hcall
  subst hreq0
  have hwh := WriteHeader_frame
      { c.response with Header := copyHeader env.canon resp.Header c.response.Header }
      resp.StatusCode
  cases h3 : (Response.WriteHeader
      { c.response with Header := copyHeader env.canon resp.Header c.response.Header }
      resp.StatusCode).2 with
  | true =>
    rw [proxyRequest_of_panic env c target req0 resp h1 hdo h3]
    refine ⟨fun h => (by cases h), fun hlo hhi _ _ => ?_⟩
    have := WriteHeader_returns
      { c.response with Header := copyHeader env.canon resp.Header c.response.Header }
      resp.StatusCode hlo hhi
    rw [h3] at this
    cases this
  | false =>
    rw [proxyRequest_of_exchange env c target req0 resp h1 hdo h3]
    cases hf : c.response.Fault with
    | none =>
      have hf2 := hwh.2.2.1.trans hf
      rw [ioCopy_noFault _ resp.Body.chunks resp.Body.err hf2]
      refine ⟨fun _ _ => ?_, fun _ _ h _ => ⟨(by trivial), h⟩⟩
      show (Response.WriteHeader _ _).1.Written ++ _ = _
      rw [hwh.2.1]
      rfl
    | some ne =>
      obtain ⟨n, e⟩ := ne
      have hf2 := hwh.2.2.1.trans hf
      rw [ioCopy_fault _ resp.Body.chunks resp.Body.err n e hf2]
      by_cases hle : resp.Body.chunks.flatten.length ≤ n
      · simp only [hle, if_true]
        refine ⟨fun _ _ => ?_, fun _ _ h _ => ⟨(by trivial), h⟩⟩
        show (Response.WriteHeader _ _).1.Written ++ _ = _
        rw [hwh.2.1]
        rfl
      · simp only [hle, if_false]
        refine ⟨fun _ h => (by cases h), fun _ _ _ h => ?_⟩
        exact absurd (h n e rfl) hle

/-- The example body, status 200, relayed through a writer that accepts exactly
its eleven bytes. -/
theorem proxyRequest_relays_body_witness :
    (proxyRequest exampleEnv (exampleContext (some (11, "broken pipe")))
      "http://upstream:8080/api/*").panicked = false ∧
    (proxyRequest exampleEnv (exampleContext (some (11, "broken pipe")))
      "http://upstream:8080/api/*").err = none ∧
    (proxyRequest exampleEnv (exampleContext (some (11, "broken pipe")))
      "http://upstream:8080/api/*").response.Written
      = [123, 34, 111, 107, 34, 58, 116, 114, 117, 101, 125] :=
  have h := proxyRequest_relays_body exampleEnv (exampleContext (some (11, "broken pipe")))
    "http://upstream:8080/api/*" (exampleOutbound "http://upstream:8080/api/*") exampleUpstream
    (by decide) rfl
  have hnone := h.2 (by decide) (by decide) rfl (by
    intro n e hf
    simp only [exampleContext, freshResponse, Option.some.injEq, Prod.mk.injEq] at hf
    rw [← hf.1]
    decide)
  ⟨hnone.1, hnone.2, h.1 hnone.1 hnone.2⟩

/-- C8: when the inbound method is not empty (no request that net/http parsed
has an empty method, and none of the seven registered methods is empty), every
request handed to the client has the inbound method, the inbound body and the
target as its URL; and one is handed over as soon as `http.NewRequest`
succeeds and the method is one of the seven. -/
theorem proxyRequest_keeps_method_and_body (env : Env) (c : Context) (target : String) :
    (c.request.Method ≠ "" →
      ∀ req ∈ (proxyRequest env c target).calls,
        req.Method = c.request.Method ∧ req.Body = c.request.Body ∧ req.URL = target) ∧
    (c.request.Method ∈ methods →
      ∀ req0, NewRequest env c.request.Method target c.request.Body = .ok req0 →
        ∃ req, (proxyRequest env c target).calls = [req] ∧
          req.Method = c.request.Method ∧ req.Body = c.request.Body ∧ req.URL = target) := by
  have key : c.request.Method ≠ "" →
      ∀ req ∈ (proxyRequest env c target).calls,
        req.Method = c.request.Method ∧ req.Body = c.request.Body ∧ req.URL = target := by
    intro hM req hreq
    obtain ⟨req0, h1, hreq0, _⟩ := calls_of_mem env c target req hreq
    have h0 := NewRequest_ok env _ _ _ req0 h1
    subst hreq0
    subst h0
    simp [hM]
  refine ⟨key, fun hmem req0 h1 => ?_⟩
  have hM : c.request.Method ≠ "" := by
    intro h0
    rw [h0] at hmem
    revert hmem
    decide
  have hc := calls_of_ok env c target req0 h1
  refine ⟨_, hc, key hM _ ?_⟩
  rw [hc]
  exact List.mem_singleton.mpr rfl

/-- Method, body and address of the outbound request for the example request. -/
theorem proxyRequest_keeps_method_and_body_witness :
    (∀ req ∈ (proxyRequest exampleEnv (exampleContext none) "http://upstream:8080/api/*").calls,
      req.Method = "GET" ∧ req.Body = exampleRequest.Body ∧
        req.URL = "http://upstream:8080/api/*") ∧
    (∃ req, (proxyRequest exampleEnv (exampleContext none) "http://upstream:8080/api/*").calls
        = [req] ∧
      req.Method = "GET" ∧ req.Body = exampleRequest.Body ∧
        req.URL = "http://upstream:8080/api/*") :=
  ⟨(proxyRequest_keeps_method_and_body exampleEnv (exampleContext none)
      "http://upstream:8080/api/*").1 (by decide),
   (proxyRequest_keeps_method_and_body exampleEnv (exampleContext none)
      "http://upstream:8080/api/*").2 (by decide)
      { Method := "GET", RequestURI := "", URL := "http://upstream:8080/api/*",
        Header := [], Body := exampleRequest.Body } rfl⟩

/-! ## Registration -/

theorem Machine.load_append_left (m : Machine) (extra : List Route) (a : Nat)
    (ha : a < m.heap.length) :
    Machine.load { m with heap := m.heap ++ extra } a = m.load a := by
  simp [Machine.load, List.getD_eq_getElem?_getD, List.getElem?_append_left ha]

theorem Machine.load_append_new (m : Machine) (v : Route) (rs : List Registration) :
    Machine.load { heap := m.heap ++ [v], routes := rs } m.heap.length = v := by
  simp [Machine.load, List.getD_append_right]

theorem Machine.view_grow (m : Machine) (hb : m.Bounded) (v : Route) (method path : String) :
    Machine.view { heap := m.heap ++ [v], routes := m.routes ++ [⟨method, path, m.heap.length⟩] }
      = m.view ++ [(method, path, v)] := by
  simp only [Machine.view, List.map_append, List.map_cons, List.map_nil]
  congr 1
  · apply List.map_congr_left
    intro g hg
    have := Machine.load_append_left m [v] g.cell (hb.2 g hg).2
    simp only [Machine.load] at this ⊢
    rw [this]
  · simp [Machine.load, List.getD_append_right]

theorem methodLoop_spec (param : Nat) (r : Route) (ms : List String) (m : Machine)
    (hb : m.Bounded) (hp : param < m.heap.length) (hr : m.load param = r) :
    (ms.foldl
      (fun m method =>
        let (m1, inner) := m.alloc (m.load param)
        m1.Add method (m1.load inner).From inner) m).Bounded ∧
    (ms.foldl
      (fun m method =>
        let (m1, inner) := m.alloc (m.load param)
        m1.Add method (m1.load inner).From inner) m).view
      = m.view ++ ms.map (fun method => (method, r.From, r)) := by
  induction ms generalizing m with
  | nil => simpa using hb
  | cons method rest ih =>
    have hstep : (let (m1, inner) := m.alloc (m.load param)
        m1.Add method (m1.load inner).From inner)
        = Machine.mk (m.heap ++ [r]) (m.routes ++ [⟨method, r.From, m.heap.length⟩]) := by
      simp only [Machine.alloc, Machine.Add, hr]
      have := Machine.load_append_new m r m.routes
      simp only [this]
    rw [List.foldl_cons, hstep]
    have hb1 : Machine.Bounded
        (Machine.mk (m.heap ++ [r]) (m.routes ++ [⟨method, r.From, m.heap.length⟩])) := by
      refine ⟨by simp, ?_⟩
      intro g hg
      simp only [List.mem_append, List.mem_singleton] at hg
      rcases hg with hg | hg
      · have := hb.2 g hg
        simp only [List.length_append, List.length_singleton]
        omega
      · subst hg
        simp only [List.length_append, List.length_singleton]
        have := hb.1
        omega
    have hp1 : param < (m.heap ++ [r]).length := by
      simp only [List.length_append, List.length_singleton]; omega
    have hr1 : Machine.load
        (Machine.mk (m.heap ++ [r]) (m.routes ++ [⟨method, r.From, m.heap.length⟩])) param
        = r := by
      have := Machine.load_append_left m [r] param hp
      simp only [Machine.load] at this hr ⊢
      rw [this, hr]
    obtain ⟨h1, h2⟩ := ih _ hb1 hp1 hr1
    refine ⟨h1, ?_⟩
    rw [h2, Machine.view_grow m hb]
    simp

theorem setupRoute_spec (m : Machine) (r : Route) (hb : m.Bounded) :
    (setupRoute m r).Bounded ∧
    (setupRoute m r).view = m.view ++ methods.map (fun method => (method, r.From, r)) := by
  have hb0 : Machine.Bounded { m with heap := m.heap ++ [r] } := by
    refine ⟨by simp, fun g hg => ?_⟩
    have := hb.2 g hg
    simp only [List.length_append, List.length_singleton]
    omega
  have hv0 : Machine.view { m with heap := m.heap ++ [r] } = m.view := by
    simp only [Machine.view]
    apply List.map_congr_left
    intro g hg
    rw [Machine.load_append_left m [r] g.cell (hb.2 g hg).2]
  have hr0 : Machine.load { m with heap := m.heap ++ [r] } m.heap.length = r :=
    Machine.load_append_new m r m.routes
  have hp0 : m.heap.length < (m.heap ++ [r]).length := by simp
  have := methodLoop_spec m.heap.length r methods { m with heap := m.heap ++ [r] } hb0 hp0 hr0
  rw [hv0] at this
  exact this

theorem methodLoop_routes (param : Nat) (r : Route) (ms : List String) (m : Machine)
    (hp : param < m.heap.length) (hr : m.load param = r) :
    (ms.foldl
      (fun m method =>
        let (m1, inner) := m.alloc (m.load param)
        m1.Add method (m1.load inner).From inner) m).routes.map (fun g => (g.method, g.path))
      = m.routes.map (fun g => (g.method, g.path)) ++ ms.map (fun method => (method, r.From)) := by
  induction ms generalizing m with
  | nil => simp
  | cons method rest ih =>
    have hstep : (let (m1, inner) := m.alloc (m.load param)
        m1.Add method (m1.load inner).From inner)
        = Machine.mk (m.heap ++ [r]) (m.routes ++ [⟨method, r.From, m.heap.length⟩]) := by
      simp only [Machine.alloc, Machine.Add, hr]
      have := Machine.load_append_new m r m.routes
      simp only [this]
    rw [List.foldl_cons, hstep]
    have hp1 : param < (m.heap ++ [r]).length := by
      simp only [List.length_append, List.length_singleton]; omega
    have hr1 : Machine.load
        (Machine.mk (m.heap ++ [r]) (m.routes ++ [⟨method, r.From, m.heap.length⟩])) param
        = r := by
      have := Machine.load_append_left m [r] param hp
      simp only [Machine.load] at this hr ⊢
      rw [this, hr]
    rw [ih _ hp1 hr1]
    simp

theorem setupRoute_routes (m : Machine) (r : Route) :
    (setupRoute m r).routes.map (fun g => (g.method, g.path))
      = m.routes.map (fun g => (g.method, g.path))
        ++ methods.map (fun method => (method, r.From)) := by
  have hr0 : Machine.load { m with heap := m.heap ++ [r] } m.heap.length = r :=
    Machine.load_append_new m r m.routes
  have hp0 : m.heap.length < (m.heap ++ [r]).length := by simp
  exact methodLoop_routes m.heap.length r methods { m with heap := m.heap ++ [r] } hp0 hr0

theorem store_spec (m : Machine) (r : Route) (hb : m.Bounded) :
    (m.store 0 r).Bounded ∧ (m.store 0 r).view = m.view ∧ (m.store 0 r).load 0 = r := by
  refine ⟨⟨?_, ?_⟩, ?_, ?_⟩
  · simpa [Machine.store] using hb.1
  · intro g hg
    simpa [Machine.store] using hb.2 g hg
  · simp only [Machine.view, Machine.store]
    apply List.map_congr_left
    intro g hg
    have hg0 : 0 < g.cell := (hb.2 g hg).1
    have hne : ¬ 0 = g.cell := by omega
    simp [Machine.load, List.getD_eq_getElem?_getD, List.getElem?_set, hne]
  · have := hb.1
    simp [Machine.store, Machine.load, List.getD_eq_getElem?_getD, List.getElem?_set, this]

theorem mainLoop_spec (rs : List Route) (m : Machine) (hb : m.Bounded) :
    (rs.foldl (fun m r =>
        let m1 := m.store 0 r
        setupRoute m1 (m1.load 0)) m).Bounded ∧
    (rs.foldl (fun m r =>
        let m1 := m.store 0 r
        setupRoute m1 (m1.load 0)) m).view
      = m.view ++ rs.flatMap (fun r => methods.map (fun method => (method, r.From, r))) := by
  induction rs generalizing m with
  | nil => simpa using hb
  | cons r rest ih =>
    obtain ⟨hb1, hv1, hl1⟩ := store_spec m r hb
    obtain ⟨hb2, hv2⟩ := setupRoute_spec (m.store 0 r) r hb1
    rw [List.foldl_cons]
    simp only [hl1]
    obtain ⟨hb3, hv3⟩ := ih _ hb2
    refine ⟨hb3, ?_⟩
    rw [hv3, hv2, hv1, List.flatMap_cons, List.append_assoc]

theorem main_view (rs : List Route) :
    (main ⟨rs⟩).view = rs.flatMap (fun r => methods.map (fun method => (method, r.From, r))) := by
  have hb : Machine.Bounded (Machine.mk [⟨"", ""⟩] []) := by
    refine ⟨by simp, ?_⟩
    intro g hg
    simp at hg
  have := (mainLoop_spec rs _ hb).2
  simpa [main, Machine.alloc, Machine.view] using this

theorem normalizePathSlash_of_slash (path : String) (h : path.data.head? = some '/') :
    normalizePathSlash path = path := by
  unfold normalizePathSlash
  cases hd : path.data with
  | nil => rw [hd] at h; cases h
  | cons ch rest =>
    rw [hd] at h
    simp only [List.head?_cons, Option.some.injEq] at h
    simp [h]

theorem flatMap_block_getElem? {α β : Type} (f : α → List β) (hf : ∀ a, (f a).length = 7)
    (l : List α) (i k : Nat) (hk : k < 7) :
    (l.flatMap f)[7 * i + k]? = (l[i]?).bind (fun a => (f a)[k]?) := by
  induction l generalizing i with
  | nil => simp
  | cons a rest ih =>
    rw [List.flatMap_cons]
    cases i with
    | zero =>
      have hlt : k < (f a).length := by rw [hf a]; exact hk
      simp [List.getElem?_append_left hlt]
    | succ i =>
      have hle : (f a).length ≤ 7 * (i + 1) + k := by rw [hf a]; omega
      rw [List.getElem?_append_right hle, hf a]
      have : 7 * (i + 1) + k - 7 = 7 * i + k := by omega
      rw [this, ih i]
      simp

theorem main_getElem? (rs : List Route) (i k : Nat) (r : Route) (hi : rs[i]? = some r)
    (hk : k < 7) :
    ∃ g method, (main ⟨rs⟩).routes[7 * i + k]? = some g ∧ methods[k]? = some method ∧
      g.method = method ∧ g.path = r.From ∧ (main ⟨rs⟩).load g.cell = r := by
  have hv := main_view rs
  have hblock := flatMap_block_getElem?
    (fun r : Route => methods.map (fun method => (method, r.From, r)))
    (fun _ => by simp [methods]) rs i k hk
  rw [← hv, hi] at hblock
  have hm : ∃ method, methods[k]? = some method := by
    have : k < methods.length := by simpa [methods] using hk
    exact ⟨methods[k], List.getElem?_eq_getElem this⟩
  obtain ⟨method, hmeth⟩ := hm
  simp only [Option.some_bind, List.getElem?_map, hmeth, Option.map_some', Machine.view] at hblock
  cases hg : (main ⟨rs⟩).routes[7 * i + k]? with
  | none => rw [hg] at hblock; simp at hblock
  | some g =>
    rw [hg] at hblock
    simp only [Option.map_some', Option.some.injEq, Prod.mk.injEq] at hblock
    exact ⟨g, method, rfl, hmeth, hblock.1, hblock.2.1, hblock.2.2⟩

/-- C1 on the code: for the rule from "/api/*" to "http://upstream:8080" and
the request `GET /api/users?x=1`, the handler's target is the base address
followed by the registered pattern, not by the request path; and for the static
rule "/static" a request `GET /static?v=2` loses its query string. -/
theorem target_appends_pattern_not_request_path :
    (invoke exampleEnv (main ⟨exampleRoutes⟩) 0 exampleRequest none).map (fun res => res.target)
      = some "http://upstream:8080/api/*" ∧
    (invoke exampleEnv (main ⟨exampleRoutes⟩) 0 exampleRequest none).map (fun res => res.target)
      ≠ some ("http://upstream:8080" ++ exampleRequest.RequestURI) ∧
    (invoke exampleEnv (main ⟨exampleRoutes⟩) 0 exampleRequest none).map
        (fun res => res.proxied.calls.map (fun out => out.URL))
      = some ["http://upstream:8080/api/*"] ∧
    (invoke exampleEnv (main ⟨exampleRoutes⟩) 7 { exampleRequest with RequestURI := "/static?v=2" }
        none).map (fun res => res.target)
      = some "http://files:9000/static" := by
  decide

/-- C2: after the registration loop, the handler at position 7·i+k (the k-th
method of the i-th rule) reads a variable that holds the i-th rule, so its
target is that rule's `to` followed by the context path; it behaves the same
in every configuration that contains the rule, at whatever position and with
whatever other rules before or after it. -/
theorem handler_bound_to_own_rule (env : Env) (rs rs' : List Route) (i j k : Nat) (r : Route)
    (hi : rs[i]? = some r) (hj : rs'[j]? = some r) (hk : k < 7) :
    ∃ g g', (main ⟨rs⟩).routes[7 * i + k]? = some g ∧
      (main ⟨rs'⟩).routes[7 * j + k]? = some g' ∧
      (main ⟨rs⟩).load g.cell = r ∧
      ∀ c, (handler env (main ⟨rs⟩) g.cell c).target = r.To ++ c.path ∧
        handler env (main ⟨rs⟩) g.cell c = handler env (main ⟨rs'⟩) g'.cell c := by
  obtain ⟨g, _, hg, _, _, _, hload⟩ := main_getElem? rs i k r hi hk
  obtain ⟨g', _, hg', _, _, _, hload'⟩ := main_getElem? rs' j k r hj hk
  refine ⟨g, g', hg, hg', hload, fun c => ⟨?_, ?_⟩⟩
  · simp [handler, hload]
  · simp [handler, hload, hload']

/-- The DELETE handler of the wildcard rule in two configurations. -/
theorem handler_bound_to_own_rule_witness :
    ∃ g g', (main ⟨exampleRoutes⟩).routes[7 * 0 + 3]? = some g ∧
      (main ⟨exampleRoutesGrown⟩).routes[7 * 1 + 3]? = some g' ∧
      (main ⟨exampleRoutes⟩).load g.cell = ⟨"/api/*", "http://upstream:8080"⟩ ∧
      ∀ c, (handler exampleEnv (main ⟨exampleRoutes⟩) g.cell c).target
          = "http://upstream:8080" ++ c.path ∧
        handler exampleEnv (main ⟨exampleRoutes⟩) g.cell c
          = handler exampleEnv (main ⟨exampleRoutesGrown⟩) g'.cell c :=
  handler_bound_to_own_rule exampleEnv exampleRoutes exampleRoutesGrown 0 1 3
    ⟨"/api/*", "http://upstream:8080"⟩ (by decide) (by decide) (by decide)

/-- C3: `setupRoute` adds to the router exactly the seven bindings (method,
`from`) for GET, POST, PUT, DELETE, PATCH, OPTIONS, HEAD in that order and
nothing else; the registration loop therefore issues, rule by rule in
configuration order, these seven bindings, 7·n in all. -/
theorem registrations_seven_per_rule (rs : List Route) :
    (∀ m r, (setupRoute m r).routes.map (fun g => (g.method, g.path))
      = m.routes.map (fun g => (g.method, g.path)) ++
        [("GET", r.From), ("POST", r.From), ("PUT", r.From), ("DELETE", r.From),
         ("PATCH", r.From), ("OPTIONS", r.From), ("HEAD", r.From)]) ∧
    (main ⟨rs⟩).routes.map (fun g => (g.method, g.path))
      = rs.flatMap (fun r => methods.map (fun method => (method, r.From))) ∧
    (main ⟨rs⟩).routes.length = 7 * rs.length := by
  have hv := main_view rs
  have hproj : (main ⟨rs⟩).routes.map (fun g => (g.method, g.path))
      = rs.flatMap (fun r => methods.map (fun method => (method, r.From))) := by
    have h := congrArg (List.map (fun t : String × String × Route => (t.1, t.2.1))) hv
    simpa [Machine.view, List.map_flatMap, Function.comp_def] using h
  refine ⟨fun m r => ?_, hproj, ?_⟩
  · rw [setupRoute_routes]
    simp [methods]
  · have h := congrArg List.length hproj
    rw [List.length_map] at h
    rw [h]
    clear h hproj hv
    induction rs with
    | nil => rfl
    | cons r rest ih =>
      rw [List.flatMap_cons, List.length_append, ih]
      simp [methods]
      omega

/-- C9: after a successful exchange the upstream body has been closed once
more than before the call, whether the copy completed or failed; and when
the copy failed, its error is returned — the stream's read error after all
bytes, or the writer's error after the bytes the writer accepted — while the
copied headers, the status and the bytes already written stay in the
caller-facing response. -/
theorem proxyRequest_closes_upstream_body (env : Env) (c : Context) (target : String)
    (req : Request) (resp : HttpResponse)
    (hcall : req ∈ (proxyRequest env c target).calls)
    (hdo : env.Do req = .ok resp) :
    (∃ up, (proxyRequest env c target).upstream = some up ∧
      up.Body.closed = resp.Body.closed + 1 ∧ up.Body.chunks = resp.Body.chunks ∧
      up.StatusCode = resp.StatusCode ∧ up.Header = resp.Header) ∧
    (∀ e, (proxyRequest env c target).err = some e →
      (proxyRequest env c target).response.Header
        = copyHeader env.canon resp.Header c.response.Header ∧
      (proxyRequest env c target).response.Status
        = (if c.response.Committed then c.response.Status else resp.StatusCode) ∧
      (proxyRequest env c target).response.Committed = true ∧
      ∃ n, (proxyRequest env c target).response.Written
          = c.response.Written ++ resp.Body.bytes.take n ∧
        ((resp.Body.err = some e ∧ n = resp.Body.bytes.length) ∨
          (c.response.Fault = some (n, e) ∧ n < resp.Body.bytes.length))) := by
  obtain ⟨req0, h1, hreq0, _⟩ := calls_of_mem env c target req hcall
  subst hreq0
  have hwh := WriteHeader_frame
      { c.response with Header := copyHeader env.canon resp.Header c.response.Header }
      resp.StatusCode
  cases h3 : (Response.WriteHeader
      { c.response with Header := copyHeader env.canon resp.Header c.response.Header }
      resp.StatusCode).2 with
  | true =>
    rw [proxyRequest_of_panic env c target req0 resp h1 hdo h3]
    exact ⟨⟨_, rfl, rfl, rfl, rfl, rfl⟩, fun e he => (by cases he)⟩
  | false =>
    rw [proxyRequest_of_exchange env c target req0 resp h1 hdo h3]
    have hfr := ioCopy_frame (Response.WriteHeader
        { c.response with Header := copyHeader env.canon resp.Header c.response.Header }
        resp.StatusCode).1 resp.Body.chunks resp.Body.err
    refine ⟨⟨_, rfl, rfl, rfl, rfl, rfl⟩, fun e he => ⟨?_, ?_, ?_, ?_⟩⟩
    · show (ioCopy _ _ _).1.Header = _
      rw [hfr.1, hwh.1]
    · show (ioCopy _ _ _).1.Status = _
      rw [hfr.2.1, hwh.2.2.2.1]
    · show (ioCopy _ _ _).1.Committed = true
      rw [hfr.2.2]
      exact hwh.2.2.2.2 h3
    · replace he : (ioCopy _ resp.Body.chunks resp.Body.err).2 = some e := he
      show ∃ n, (ioCopy _ resp.Body.chunks resp.Body.err).1.Written = _ ∧ _
      cases hf : c.response.Fault with
      | none =>
        have hf2 := hwh.2.2.1.trans hf
        rw [ioCopy_noFault _ resp.Body.chunks resp.Body.err hf2] at he ⊢
        refine ⟨resp.Body.bytes.length, ?_, Or.inl ⟨he, rfl⟩⟩
        show (Response.WriteHeader _ _).1.Written ++ _ = _
        rw [hwh.2.1, List.take_length]
        rfl
      | some ne =>
        obtain ⟨n, e'⟩ := ne
        have hf2 := hwh.2.2.1.trans hf
        rw [ioCopy_fault _ resp.Body.chunks resp.Body.err n e' hf2] at he ⊢
        by_cases hle : resp.Body.chunks.flatten.length ≤ n
        · simp only [hle, if_true] at he ⊢
          refine ⟨resp.Body.bytes.length, ?_, Or.inl ⟨he, rfl⟩⟩
          show (Response.WriteHeader _ _).1.Written ++ _ = _
          rw [hwh.2.1, List.take_length]
          rfl
        · simp only [hle, if_false] at he ⊢
          have hee : e' = e := by injection he
          subst hee
          refine ⟨n, ?_, Or.inr ⟨rfl, ?_⟩⟩
          · show (Response.WriteHeader _ _).1.Written ++ _ = _
            rw [hwh.2.1]
            rfl
          · show n < resp.Body.chunks.flatten.length
            omega

/-- The example exchange through a writer that fails after four bytes. -/
theorem proxyRequest_closes_upstream_body_witness :
    (∃ up, (proxyRequest exampleEnv (exampleContext (some (4, "broken pipe")))
        "http://upstream:8080/api/*").upstream = some up ∧
      up.Body.closed = 0 + 1 ∧ up.Body.chunks = exampleUpstream.Body.chunks ∧
      up.StatusCode = 200 ∧ up.Header = exampleUpstream.Header) ∧
    (proxyRequest exampleEnv (exampleContext (some (4, "broken pipe")))
        "http://upstream:8080/api/*").err = some "broken pipe" ∧
    (proxyRequest exampleEnv (exampleContext (some (4, "broken pipe")))
        "http://upstream:8080/api/*").response.Written = [123, 34, 111, 107] :=
  ⟨(proxyRequest_closes_upstream_body exampleEnv (exampleContext (some (4, "broken pipe")))
      "http://upstream:8080/api/*" (exampleOutbound "http://upstream:8080/api/*")
      exampleUpstream (by decide) rfl).1,
   by decide, by decide⟩

/-- C10 as stated fails on the code: for the rule from "api" (no leading
slash) to "http://h:1" the router stores the pattern as "/api", so the
handler's target is "http://h:1/api" and not `to + from`, "http://h:1api". -/
theorem target_is_not_to_from_without_leading_slash :
    (invoke exampleEnv (main ⟨slashlessRoutes⟩) 0 exampleRequest none).map
        (fun res => res.target) = some "http://h:1/api" ∧
    (invoke exampleEnv (main ⟨slashlessRoutes⟩) 0 exampleRequest none).map
        (fun res => res.target) ≠ some ("http://h:1" ++ "api") ∧
    (main ⟨slashlessRoutes⟩).routes[0]? = some ⟨"GET", "api", 2⟩ ∧
    (main ⟨slashlessRoutes⟩).load 2 = ⟨"api", "http://h:1"⟩ := by
  decide

/-- C10 (amended): whatever request the router hands to the k-th handler of
the i-th rule, the handler runs and its target is the rule's `to` followed by
the pattern as the router stored it (the rule's `from`, with a slash put in
front when it has none); every outbound call it makes goes to that address, so
two requests served by the same rule yield the same target.  When `from`
starts with a slash the target is `to + from`. -/
theorem target_is_to_followed_by_stored_pattern (env : Env) (rs : List Route) (i k : Nat)
    (r : Route) (hi : rs[i]? = some r) (hk : k < 7)
    (req1 req2 : Request) (fault1 fault2 : Option (Nat × Error)) :
    ∃ res1 res2, invoke env (main ⟨rs⟩) (7 * i + k) req1 fault1 = some res1 ∧
      invoke env (main ⟨rs⟩) (7 * i + k) req2 fault2 = some res2 ∧
      res1.target = r.To ++ normalizePathSlash r.From ∧
      res2.target = r.To ++ normalizePathSlash r.From ∧
      res1.target = res2.target ∧
      (∀ out ∈ res1.proxied.calls, out.URL = r.To ++ normalizePathSlash r.From) ∧
      (∀ out ∈ res2.proxied.calls, out.URL = r.To ++ normalizePathSlash r.From) ∧
      (r.From.data.head? = some '/' →
        res1.target = r.To ++ r.From ∧ res2.target = r.To ++ r.From) := by
  obtain ⟨g, _, hg, _, _, hpath, hload⟩ := main_getElem? rs i k r hi hk
  have hurl : ∀ (c : Context) (target : String), ∀ out ∈ (proxyRequest env c target).calls,
      out.URL = target := by
    intro c target out hout
    obtain ⟨req0, h1, hreq0, _⟩ := calls_of_mem env c target out hout
    have h0 := NewRequest_ok env _ _ _ req0 h1
    subst hreq0
    subst h0
    rfl
  refine ⟨handler env (main ⟨rs⟩) g.cell
      ⟨normalizePathSlash g.path, req1, freshResponse fault1⟩,
    handler env (main ⟨rs⟩) g.cell
      ⟨normalizePathSlash g.path, req2, freshResponse fault2⟩, ?_, ?_, ?_, ?_, ?_, ?_, ?_, ?_⟩
  · simp only [invoke, List.get?_eq_getElem?, hg, Option.map_some']
  · simp only [invoke, List.get?_eq_getElem?, hg, Option.map_some']
  · simp [handler, hload, hpath]
  · simp [handler, hload, hpath]
  · simp [handler, hload, hpath]
  · intro out hout
    have := hurl _ _ out hout
    simpa [hload, hpath] using this
  · intro out hout
    have := hurl _ _ out hout
    simpa [hload, hpath] using this
  · intro hslash
    have hn := normalizePathSlash_of_slash r.From hslash
    simp [handler, hload, hpath, hn]

/-- Two different requests under the wildcard rule, whose pattern starts with
a slash. -/
theorem target_is_to_followed_by_stored_pattern_witness :
    ∃ res1 res2, invoke exampleEnv (main ⟨exampleRoutes⟩) (7 * 0 + 0) exampleRequest none
        = some res1 ∧
      invoke exampleEnv (main ⟨exampleRoutes⟩) (7 * 0 + 0)
        { exampleRequest with RequestURI := "/api/orders/7?y=2" } none = some res2 ∧
      res1.target = res2.target ∧
      (∀ out ∈ res1.proxied.calls, out.URL = "http://upstream:8080" ++ "/api/*") ∧
      (∀ out ∈ res2.proxied.calls, out.URL = "http://upstream:8080" ++ "/api/*") ∧
      res1.target = "http://upstream:8080" ++ "/api/*" ∧
      res2.target = "http://upstream:8080" ++ "/api/*" :=
  match target_is_to_followed_by_stored_pattern exampleEnv exampleRoutes 0 0
    ⟨"/api/*", "http://upstream:8080"⟩ (by decide) (by decide) exampleRequest
    { exampleRequest with RequestURI := "/api/orders/7?y=2" } none none with
  | ⟨res1, res2, h1, h2, _, _, h5, h6, h7, h8⟩ =>
    ⟨res1, res2, h1, h2, h5, h6, h7, (h8 (by decide)).1, (h8 (by decide)).2⟩

end SimpleProxy
